import Mathlib

/-!
Shallow embedding of the orchestration core of the mcphost repository:
the transcript data model (`pkg/history` as used by `cmd`), the pruning
algorithm `pruneMessages`, the provider retry loop, the tool-dispatch loop
shared by `runPrompt` (interactive) and `runPromptNonInteractive`
(server mode), and the two entry points themselves.

The LLM provider is modelled as a script (oracle) of replies consumed one
per `CreateMessage` call; tool servers are modelled as functions from tool
name and parsed arguments to a result or an error.  Display side effects
(`fmt.Printf`, rendered markdown) are modelled as an explicit trace of
strings; logging (`log.Info` etc.) is not display and is not modelled.
-/

namespace MCPHost

/-- One item of a raw MCP tool result (`mcp.CallToolResult.Content` holds
`[]interface{}`; the code only inspects `mcp.TextContent` items and treats
everything else opaquely). -/
inductive MCPContent where
  | text (s : String)
  | other (kind : String)
deriving DecidableEq

/-- The `Content` field of a history content block (`interface{}` in Go).
The code only ever stores: nothing (zero value), the raw MCP content of a
successful tool call, or a singleton list of text-only nested blocks on a
failed tool call; nested blocks carry just their type and text, modelled as
pairs to keep the type non-recursive. -/
inductive Payload where
  | none
  | mcp (items : List MCPContent)
  | blocks (items : List (String × String))
deriving DecidableEq

/-- A JSON-shaped tool-argument payload.  `obj` is a JSON object (string
fields suffice for the claims); `nonObj` is a payload whose
`json.Unmarshal` into `map[string]interface{}` fails.  Marshalling is
modelled as carrying the JSON value itself. -/
inductive GoJson where
  | obj (fields : List (String × String))
  | nonObj (raw : String)
deriving DecidableEq

/-- `history.ContentBlock` with the fields the `cmd` package uses; absent
fields default to Go zero values. -/
structure ContentBlock where
  type : String := ""
  text : String := ""
  id : String := ""
  name : String := ""
  input : Option GoJson := Option.none
  toolUseID : String := ""
  content : Payload := Payload.none
deriving DecidableEq

/-- `history.HistoryMessage`: one transcript turn. -/
structure HistoryMessage where
  role : String
  content : List ContentBlock
deriving DecidableEq

/-- One tool call requested by the provider (`llm.ToolCall`): identifier,
fully-qualified name, argument payload. -/
structure ToolCall where
  id : String
  name : String
  args : GoJson
deriving DecidableEq

/-- A provider reply (`llm.Message`): reply text, requested tool calls,
role label, token usage. -/
structure LLMMessage where
  content : String
  toolCalls : List ToolCall
  role : String
  inputTokens : Nat := 0
  outputTokens : Nat := 0
deriving DecidableEq

/-- One outcome of a `provider.CreateMessage` call: a message or an error
string (`err.Error()`). -/
inductive ProviderReply where
  | ok (m : LLMMessage)
  | fail (e : String)
deriving DecidableEq

/-- `mcp.CallToolResult`: the raw content, `Option.none` modelling a Go nil
slice (the code checks `toolResult.Content != nil`). -/
structure CallToolResult where
  content : Option (List MCPContent)
deriving DecidableEq

/-- A connected MCP tool server: `CallTool` takes the bare tool name and
the parsed argument object and yields a result or an error. -/
def MCPClient : Type := String → List (String × String) → Except String CallToolResult

deriving instance DecidableEq for Except

/-- Go `strings.Contains s sub`. -/
def goContains (s sub : String) : Bool :=
  decide (List.IsInfix sub.toList s.toList)

/-- Go `strings.Split(s, "__")` on the character list: split on every
non-overlapping occurrence of the two-character separator `__`, left to
right. -/
def splitDunderChars : List Char → List (List Char)
  | [] => [[]]
  | [c] => [[c]]
  | c :: d :: rest =>
    if c = '_' ∧ d = '_' then [] :: splitDunderChars rest
    else
      match splitDunderChars (d :: rest) with
      | [] => [[c]]
      | g :: gs => (c :: g) :: gs

/-- Go `strings.Split(s, "__")`. -/
def goSplitDunder (s : String) : List String :=
  (splitDunderChars s.toList).map fun l => String.mk l

/-- Go `strings.TrimSpace`. -/
def goTrimSpace (s : String) : String :=
  String.mk
    (((s.toList.dropWhile Char.isWhitespace).reverse.dropWhile
      Char.isWhitespace).reverse)

/-- `initialBackoff = 1 * time.Second`, in nanoseconds. -/
def initialBackoff : Nat := 1000000000

/-- `maxBackoff = 30 * time.Second`, in nanoseconds. -/
def maxBackoff : Nat := 30000000000

/-- `maxRetries = 5`. -/
def maxRetries : Nat := 5

/-- The substring of a provider error that classifies it as transient. -/
def overloadedSubstr : String := "overloaded_error"

/-- The terminal error message once retries are exhausted. -/
def overloadTerminalMsg : String :=
  "claude is currently overloaded. please wait a few minutes and try again"

/-- A scripted reply that the retry loop classifies as transient. -/
def isTransient : ProviderReply → Bool
  | ProviderReply.ok _ => false
  | ProviderReply.fail e => goContains e overloadedSubstr

/-- First pass of `pruneMessages`: collect the identifiers of all
`tool_use` blocks among the kept turns (Go builds a `map[string]bool`;
membership in this list is the same predicate). -/
def collectToolUseIds (msgs : List HistoryMessage) : List String :=
  msgs.flatMap fun m =>
    m.content.filterMap fun b =>
      if b.type = "tool_use" then some b.id else Option.none

/-- First pass of `pruneMessages`: collect the back-references of all
`tool_result` blocks among the kept turns. -/
def collectToolResultIds (msgs : List HistoryMessage) : List String :=
  msgs.flatMap fun m =>
    m.content.filterMap fun b =>
      if b.type = "tool_result" then some b.toolUseID else Option.none

/-- Second-pass block filter of `pruneMessages`: a `tool_use` block is kept
iff some kept turn holds a result for it, a `tool_result` block iff some
kept turn holds its invocation, anything else is kept. -/
def keepBlock (useIds resIds : List String) (b : ContentBlock) : Bool :=
  if b.type = "tool_use" then decide (b.id ∈ resIds)
  else if b.type = "tool_result" then decide (b.toolUseID ∈ useIds)
  else true

/-- `hasTextBlock` as computed in the second pass of `pruneMessages`, over
the original (unfiltered) content of the turn. -/
def hasTextBlock (m : HistoryMessage) : Bool :=
  m.content.any fun b => b.type = "text"

/-- `pruneMessages` from `cmd` (the global `messageWindow` flag passed as a
parameter): no-op at or below the window, otherwise keep the most recent
`window` turns, filter orphaned tool blocks, and drop turns by the nested
conditions of the source. -/
def pruneMessages (window : Nat) (messages : List HistoryMessage) :
    List HistoryMessage :=
  if messages.length ≤ window then messages
  else
    let msgs := messages.drop (messages.length - window)
    let useIds := collectToolUseIds msgs
    let resIds := collectToolResultIds msgs
    msgs.filterMap fun m =>
      let pruned := m.content.filter fun b => keepBlock useIds resIds b
      if (pruned ≠ [] ∧ m.role = "assistant") ∨ m.role ≠ "assistant" then
        if pruned ≠ [] ∨ hasTextBlock m = true then
          some { m with content := pruned }
        else Option.none
      else Option.none

/-- `json.Unmarshal(input, &toolArgs)`: succeeds exactly on JSON objects. -/
def parseArgs : GoJson → Option (List (String × String))
  | GoJson.obj fields => some fields
  | GoJson.nonObj _ => Option.none

/-- The `tool_use` block appended to the assistant turn for each requested
tool call (`input` stores the marshalled argument payload). -/
def mkToolUseBlock (tc : ToolCall) : ContentBlock :=
  { type := "tool_use", id := tc.id, name := tc.name, input := some tc.args }

/-- The flattened text summary of a raw tool result: for each plain-text
item, `resultText += fmt.Sprintf("%v ", item.Text)`, then
`strings.TrimSpace`. -/
def flattenText (items : List MCPContent) : String :=
  goTrimSpace (items.foldl
    (fun acc i =>
      match i with
      | MCPContent.text s => acc ++ s ++ " "
      | MCPContent.other _ => acc) "")

/-- The `tool_result` block built on a successful tool call with non-nil
content. -/
def successResultBlock (callId : String) (items : List MCPContent) :
    ContentBlock :=
  { type := "tool_result", toolUseID := callId,
    content := Payload.mcp items, text := flattenText items }

/-- The synthetic `tool_result` block built when a tool call fails: the
error text is nested as a single text block; the flat `Text` field stays at
its zero value. -/
def errorResultBlock (callId errMsg : String) : ContentBlock :=
  { type := "tool_result", toolUseID := callId,
    content := Payload.blocks [("text", errMsg)] }

/-- Dispatching a single requested tool call, following the loop body
shared by `runPrompt` and `runPromptNonInteractive`: returns the error
lines printed, the `(server, tool)` calls actually made, and the produced
result block if any. -/
def dispatchOne (clients : List (String × MCPClient)) (tc : ToolCall) :
    List String × List (String × String) × Option ContentBlock :=
  match goSplitDunder tc.name with
  | [serverName, toolName] =>
    match clients.lookup serverName with
    | Option.none =>
      (["Error: Server not found: " ++ serverName], [], Option.none)
    | some client =>
      match parseArgs tc.args with
      | Option.none =>
        (["Error parsing tool arguments"], [], Option.none)
      | some toolArgs =>
        match client toolName toolArgs with
        | Except.error e =>
          let errMsg := "Error calling tool " ++ toolName ++ ": " ++ e
          ([errMsg], [(serverName, toolName)],
            some (errorResultBlock tc.id errMsg))
        | Except.ok res =>
          match res.content with
          | Option.none => ([], [(serverName, toolName)], Option.none)
          | some items =>
            ([], [(serverName, toolName)],
              some (successResultBlock tc.id items))
  | _ =>
    (["Error: Invalid tool name format: " ++ tc.name], [], Option.none)

/-- The result of the tool-dispatch loop over one provider reply. -/
structure DispatchOut where
  display : List String
  toolUseBlocks : List ContentBlock
  called : List (String × String)
  toolResults : List ContentBlock
deriving DecidableEq

/-- The dispatch loop over the requested tool calls, in request order:
every call contributes its `tool_use` block to the assistant turn before
any validity checks; skipped or failed calls follow `dispatchOne`. -/
def dispatchCalls (clients : List (String × MCPClient)) :
    List ToolCall → DispatchOut
  | [] => ⟨[], [], [], []⟩
  | tc :: rest =>
    let step := dispatchOne clients tc
    let out := dispatchCalls clients rest
    ⟨step.1 ++ out.display,
     mkToolUseBlock tc :: out.toolUseBlocks,
     step.2.1 ++ out.called,
     match step.2.2 with
     | some r => r :: out.toolResults
     | Option.none => out.toolResults⟩

/-- The provider retry loop of `runPrompt` (lines 281-318): consume scripted
replies; an error containing `overloaded_error` sleeps the current backoff
(recorded in the returned delay list), doubles it capping at `maxBackoff`,
and retries unless `maxRetries` attempts are already spent; any other error
propagates immediately.  Returns the slept delays, the unconsumed script,
and the message or error. -/
def attemptCreateMessage :
    List ProviderReply → Nat → Nat →
    List Nat × List ProviderReply × Except String LLMMessage
  | [], _, _ => ([], [], Except.error "provider returned no reply")
  | ProviderReply.ok m :: rest, _, _ => ([], rest, Except.ok m)
  | ProviderReply.fail e :: rest, backoff, retries =>
    if goContains e overloadedSubstr then
      if maxRetries ≤ retries then
        ([], rest, Except.error overloadTerminalMsg)
      else
        let next := min (backoff * 2) maxBackoff
        let out := attemptCreateMessage rest next (retries + 1)
        (backoff :: out.1, out.2.1, out.2.2)
    else ([], rest, Except.error e)

/-- The `user` turn appended for a non-empty human prompt. -/
def userTurn (prompt : String) : HistoryMessage :=
  { role := "user", content := [{ type := "text", text := prompt }] }

/-- Outcome of the interactive entry point: display trace, final
transcript, unconsumed script, tool calls made, and success or error. -/
structure TurnOutcome where
  display : List String
  messages : List HistoryMessage
  remaining : List ProviderReply
  called : List (String × String)
  result : Except String Unit
deriving DecidableEq

/-- Outcome of the non-interactive entry point; `result` carries the
returned reply text. -/
structure ServeOutcome where
  display : List String
  messages : List HistoryMessage
  remaining : List ProviderReply
  called : List (String × String)
  result : Except String String
deriving DecidableEq

/-- `runPrompt`, fuelled recursion (each continuation consumes at least one
scripted reply, so `script.length + 1` fuel always suffices; the wrapper
`runPrompt` supplies it).  A non-empty prompt first displays and appends a
`user` turn; then the provider is called under the retry loop; reply text
is displayed and stored as a text block; tool calls are dispatched in
order; the assistant turn and one `tool` turn per result are appended; if
any result was produced the turn continues with an empty prompt. -/
def runPromptFuel (clients : List (String × MCPClient)) :
    Nat → List ProviderReply → String → List HistoryMessage → TurnOutcome
  | 0, script, _, msgs =>
    ⟨[], msgs, script, [], Except.error "script exhausted"⟩
  | fuel + 1, script, prompt, msgs =>
    let promptDisplay := if prompt ≠ "" then ["You: " ++ prompt] else []
    let msgs1 := if prompt ≠ "" then msgs ++ [userTurn prompt] else msgs
    match attemptCreateMessage script initialBackoff 0 with
    | (_, rem, Except.error e) =>
      ⟨promptDisplay, msgs1, rem, [], Except.error e⟩
    | (_, rem, Except.ok m) =>
      let textBlocks : List ContentBlock :=
        if m.content ≠ "" then [{ type := "text", text := m.content }] else []
      let textDisplay :=
        if m.content ≠ "" then ["Assistant: " ++ m.content] else []
      let d := dispatchCalls clients m.toolCalls
      let msgs2 := msgs1 ++ [⟨m.role, textBlocks ++ d.toolUseBlocks⟩]
        ++ d.toolResults.map fun r => ⟨"tool", [r]⟩
      if d.toolResults = [] then
        ⟨promptDisplay ++ textDisplay ++ d.display, msgs2, rem, d.called,
          Except.ok ()⟩
      else
        let o := runPromptFuel clients fuel rem "" msgs2
        ⟨promptDisplay ++ textDisplay ++ d.display ++ o.display,
          o.messages, o.remaining, d.called ++ o.called, o.result⟩

/-- `runPrompt` from `cmd`: the interactive entry point, with enough fuel
that the fuel bound is never the terminating condition. -/
def runPrompt (clients : List (String × MCPClient))
    (script : List ProviderReply) (prompt : String)
    (msgs : List HistoryMessage) : TurnOutcome :=
  runPromptFuel clients (script.length + 1) script prompt msgs

/-- `runPromptNonInteractive` from `cmd/server.go`: no user turn is
appended and nothing is displayed for the prompt or the reply; a reply with
non-empty text returns it immediately, leaving the transcript untouched;
otherwise tool calls are dispatched, the assistant turn (tool-use blocks
only) and one `tool` turn per result are appended, and the turn continues
with an empty prompt while results keep being produced. -/
def runPromptNonInteractive (clients : List (String × MCPClient)) :
    List ProviderReply → String → List HistoryMessage → ServeOutcome
  | [], _, msgs =>
    ⟨[], msgs, [], [], Except.error "provider returned no reply"⟩
  | ProviderReply.fail e :: rest, _, msgs =>
    ⟨[], msgs, rest, [], Except.error e⟩
  | ProviderReply.ok m :: rest, _, msgs =>
    if m.content ≠ "" then ⟨[], msgs, rest, [], Except.ok m.content⟩
    else
      let d := dispatchCalls clients m.toolCalls
      let msgs2 := msgs ++ [⟨m.role, d.toolUseBlocks⟩]
        ++ d.toolResults.map fun r => ⟨"tool", [r]⟩
      if d.toolResults = [] then
        ⟨d.display, msgs2, rest, d.called, Except.ok ""⟩
      else
        let o := runPromptNonInteractive clients rest "" msgs2
        ⟨d.display ++ o.display, o.messages, o.remaining,
          d.called ++ o.called, o.result⟩

/-- Pruning above threshold, stated the way the amended C2 puts it: inside
the kept window, a turn of any role survives exactly when it still has at
least one segment after the orphan filter (its content replaced by the
filtered segments). -/
def prunedWindow (window : Nat) (messages : List HistoryMessage) :
    List HistoryMessage :=
  let msgs := messages.drop (messages.length - window)
  let useIds := collectToolUseIds msgs
  let resIds := collectToolResultIds msgs
  msgs.filterMap fun m =>
    let pruned := m.content.filter fun b => keepBlock useIds resIds b
    if pruned = [] then Option.none
    else some { m with content := pruned }

/-- A user turn with one text segment, input to several witnesses. -/
def exTextTurn : HistoryMessage :=
  { role := "user", content := [{ type := "text", text := "hello" }] }

/-- A user turn that has no segments at all. -/
def exEmptyTurn : HistoryMessage := { role := "user", content := [] }

/-- An assistant turn holding a dangling invocation (a `tool_use` with no
result anywhere in the transcript). -/
def exDanglingUse : HistoryMessage :=
  { role := "assistant",
    content := [{ type := "tool_use", id := "x", name := "srv__t" }] }

/-- A transcript exercising the window-plus-repair path: an assistant turn
whose invocation is answered, its tool turn, and trailing text turns. -/
def exPairedTranscript : List HistoryMessage :=
  [exTextTurn,
   { role := "assistant",
     content := [{ type := "text", text := "calling" },
                 { type := "tool_use", id := "a1", name := "srv__t" }] },
   { role := "tool",
     content := [{ type := "tool_result", toolUseID := "a1",
                   text := "out", content := Payload.mcp [MCPContent.text "out"] }] },
   { role := "assistant", content := [{ type := "text", text := "done" }] }]

/-- A script of six consecutive transient provider failures, one more than
`maxRetries` allows. -/
def exOverloadedScript : List ProviderReply :=
  List.replicate 6 (ProviderReply.fail "anthropic: overloaded_error: retry")

/-- A provider error that is not the overloaded condition. -/
def exFatalError : String := "invalid_request_error: bad api key"

/-- Stated from the amended C8: the flattened summary is each plain-text
item followed by a single space, concatenated, then trimmed. -/
def specFlattenSpaced (items : List MCPContent) : String :=
  goTrimSpace (String.join (items.filterMap fun i =>
    match i with
    | MCPContent.text s => some (s ++ " ")
    | MCPContent.other _ => Option.none))

/-- A tool server that answers every call with one text item. -/
def exEchoClient : MCPClient := fun _ _ =>
  Except.ok ⟨some [MCPContent.text "ok"]⟩

/-- A tool server whose every call fails with a network error. -/
def exFailClient : MCPClient := fun _ _ => Except.error "network error"

/-- A tool server that answers with two text items. -/
def exTwoTextClient : MCPClient := fun _ _ =>
  Except.ok ⟨some [MCPContent.text "a", MCPContent.text "b"]⟩

/-- A tool server that answers successfully but with nil content. -/
def exNilClient : MCPClient := fun _ _ => Except.ok ⟨Option.none⟩

/-- The spec scenario's malformed fully-qualified tool name. -/
def exBadCall : ToolCall := ⟨"id9", "notaqualifiedname", GoJson.obj []⟩

/-- A well-formed call on the registered server `srv`. -/
def exGoodCall : ToolCall := ⟨"id1", "srv__echo", GoJson.obj [("q", "v")]⟩

/-- A registry holding the one server `srv`. -/
def exClients : List (String × MCPClient) := [("srv", exEchoClient)]

/-- The invocation of the C7 scenario. -/
def exC7Call : ToolCall := ⟨"tc1", "srv__fetch", GoJson.obj []⟩

/-- Registry for the C7 scenario: `srv` exists but its calls fail. -/
def exC7Clients : List (String × MCPClient) := [("srv", exFailClient)]

/-- C7 scenario script: reply text plus one invocation, then a reply with
no invocations, then a reply that must stay unconsumed. -/
def exC7Script : List ProviderReply :=
  [ProviderReply.ok ⟨"Let me fetch that", [exC7Call], "assistant", 0, 0⟩,
   ProviderReply.ok ⟨"All done", [], "assistant", 0, 0⟩,
   ProviderReply.ok ⟨"unused", [], "assistant", 0, 0⟩]

/-- Registry for the C8 witnesses: a two-text-item server and a
nil-content server. -/
def exC8Clients : List (String × MCPClient) :=
  [("s1", exTwoTextClient), ("s2", exNilClient)]

/-- A call routed to the two-text-item server. -/
def exC8CallA : ToolCall := ⟨"u1", "s1__t", GoJson.obj []⟩

/-- A call routed to the nil-content server. -/
def exC8CallB : ToolCall := ⟨"u2", "s2__t", GoJson.obj []⟩

/-- A provider reply carrying plain text and no invocations. -/
def exC1Msg : LLMMessage := ⟨"hello there", [], "assistant", 0, 0⟩

/-- A provider reply with non-empty text that also requests an
invocation. -/
def exC10Msg : LLMMessage :=
  ⟨"Direct answer", [⟨"z1", "srv__x", GoJson.obj []⟩], "assistant", 0, 0⟩

/- ### Theorems -/

theorem hasTextBlock_filter_ne_nil (useIds resIds : List String)
    (m : HistoryMessage) (h : hasTextBlock m = true) :
    m.content.filter (fun b => keepBlock useIds resIds b) ≠ [] := by
  simp only [hasTextBlock, List.any_eq_true, decide_eq_true_eq] at h
  obtain ⟨b, hb, ht⟩ := h
  intro hnil
  have hmem : b ∈ m.content.filter (fun b => keepBlock useIds resIds b) := by
    rw [List.mem_filter]
    exact ⟨hb, by simp [keepBlock, ht]⟩
  rw [hnil] at hmem
  exact (List.not_mem_nil b) hmem

theorem pruneMessages_eq_prunedWindow (window : Nat)
    (messages : List HistoryMessage) (h : window < messages.length) :
    pruneMessages window messages = prunedWindow window messages := by
  rw [pruneMessages, if_neg (by omega), prunedWindow]
  apply List.filterMap_congr
  intro m _
  by_cases hp : m.content.filter
      (fun b => keepBlock (collectToolUseIds (messages.drop (messages.length - window)))
        (collectToolResultIds (messages.drop (messages.length - window))) b) = []
  · by_cases hr : m.role = "assistant"
    · simp [hp, hr]
    · have ht : ¬ hasTextBlock m = true := fun h' =>
        hasTextBlock_filter_ne_nil _ _ m h' hp
      simp [hp, hr, ht]
  · by_cases hr : m.role = "assistant" <;> simp [hp, hr]

/-- C9: pruning is a no-op at or below the window: the transcript is
returned unchanged. -/
theorem claim_C9 (window : Nat) (messages : List HistoryMessage)
    (h : messages.length ≤ window) :
    pruneMessages window messages = messages := by
  simp [pruneMessages, h]

theorem claim_C9_witness :
    exPairedTranscript.length ≤ 10 ∧
      pruneMessages 10 exPairedTranscript = exPairedTranscript :=
  ⟨by decide, claim_C9 10 exPairedTranscript (by decide)⟩

/-- C2 counterexample: with more turns than the window, a non-assistant
turn that originally had no segments at all is dropped by `pruneMessages`,
while the claim says such a turn is kept. -/
theorem claim_C2_counterexample :
    1 < [exTextTurn, exEmptyTurn].length ∧
      exEmptyTurn.role ≠ "assistant" ∧ exEmptyTurn.content = [] ∧
      pruneMessages 1 [exTextTurn, exEmptyTurn] = [] := by
  decide

/-- C2 amended: above the window, after filtering segments within each kept
turn, an assistant turn is dropped exactly when it has zero remaining
segments, and a turn of every other role is likewise kept exactly when at
least one segment remains after filtering (text segments always survive
the filter, but a turn left with no segments is dropped even if it had
none to begin with). -/
theorem claim_C2 (window : Nat) (messages : List HistoryMessage)
    (h : window < messages.length) :
    pruneMessages window messages = prunedWindow window messages :=
  pruneMessages_eq_prunedWindow window messages h

theorem claim_C2_witness :
    1 < [exTextTurn, exEmptyTurn].length ∧
      pruneMessages 1 [exTextTurn, exEmptyTurn] =
        prunedWindow 1 [exTextTurn, exEmptyTurn] :=
  ⟨by decide, claim_C2 1 [exTextTurn, exEmptyTurn] (by decide)⟩

theorem mem_collectToolUseIds {msgs : List HistoryMessage} {x : String} :
    x ∈ collectToolUseIds msgs ↔
      ∃ m ∈ msgs, ∃ b ∈ m.content, b.type = "tool_use" ∧ b.id = x := by
  simp only [collectToolUseIds, List.mem_flatMap, List.mem_filterMap]
  constructor
  · rintro ⟨m, hm, b, hb, hif⟩
    by_cases ht : b.type = "tool_use"
    · rw [if_pos ht] at hif
      exact ⟨m, hm, b, hb, ht, Option.some.inj hif⟩
    · rw [if_neg ht] at hif
      exact absurd hif (by simp)
  · rintro ⟨m, hm, b, hb, ht, hx⟩
    exact ⟨m, hm, b, hb, by rw [if_pos ht, hx]⟩

theorem mem_collectToolResultIds {msgs : List HistoryMessage} {x : String} :
    x ∈ collectToolResultIds msgs ↔
      ∃ m ∈ msgs, ∃ b ∈ m.content, b.type = "tool_result" ∧ b.toolUseID = x := by
  simp only [collectToolResultIds, List.mem_flatMap, List.mem_filterMap]
  constructor
  · rintro ⟨m, hm, b, hb, hif⟩
    by_cases ht : b.type = "tool_result"
    · rw [if_pos ht] at hif
      exact ⟨m, hm, b, hb, ht, Option.some.inj hif⟩
    · rw [if_neg ht] at hif
      exact absurd hif (by simp)
  · rintro ⟨m, hm, b, hb, ht, hx⟩
    exact ⟨m, hm, b, hb, by rw [if_pos ht, hx]⟩

theorem mem_prunedWindow_of_block {window : Nat}
    {messages : List HistoryMessage} {m : HistoryMessage} {b : ContentBlock}
    (hm : m ∈ messages.drop (messages.length - window))
    (hb : b ∈ m.content)
    (hk : keepBlock (collectToolUseIds (messages.drop (messages.length - window)))
      (collectToolResultIds (messages.drop (messages.length - window))) b = true) :
    ∃ m' ∈ prunedWindow window messages, b ∈ m'.content := by
  set w := messages.drop (messages.length - window) with hw
  set useIds := collectToolUseIds w
  set resIds := collectToolResultIds w
  have hmemf : b ∈ m.content.filter (fun c => keepBlock useIds resIds c) :=
    List.mem_filter.mpr ⟨hb, hk⟩
  have hne : m.content.filter (fun c => keepBlock useIds resIds c) ≠ [] :=
    List.ne_nil_of_mem hmemf
  refine ⟨{ m with content := m.content.filter (fun c => keepBlock useIds resIds c) }, ?_, hmemf⟩
  rw [prunedWindow]
  exact List.mem_filterMap.mpr ⟨m, hm, by simp [hne]⟩

/-- C3 counterexample: at or below the window, `pruneMessages` returns the
transcript unchanged, so a dangling invocation survives: the pruned
transcript contains a `tool_use` segment while no `tool_result` segment
exists anywhere in it. -/
theorem claim_C3_counterexample :
    pruneMessages 10 [exDanglingUse] = [exDanglingUse] ∧
      (∃ b ∈ exDanglingUse.content, b.type = "tool_use") ∧
      (∀ m ∈ pruneMessages 10 [exDanglingUse], ∀ b ∈ m.content,
        b.type ≠ "tool_result") := by
  decide

/-- C3 amended: whenever pruning actually shrinks the transcript (more
turns than the window), the result contains no `tool_use` segment without
a matching kept `tool_result` segment and no `tool_result` segment whose
back-reference has no matching kept `tool_use` segment; at or below the
window the transcript passes through unrepaired. -/
theorem claim_C3 (window : Nat) (messages : List HistoryMessage)
    (h : window < messages.length) :
    ∀ m ∈ pruneMessages window messages, ∀ b ∈ m.content,
      (b.type = "tool_use" →
        ∃ m' ∈ pruneMessages window messages, ∃ b' ∈ m'.content,
          b'.type = "tool_result" ∧ b'.toolUseID = b.id) ∧
      (b.type = "tool_result" →
        ∃ m' ∈ pruneMessages window messages, ∃ b' ∈ m'.content,
          b'.type = "tool_use" ∧ b'.id = b.toolUseID) := by
  rw [pruneMessages_eq_prunedWindow window messages h]
  intro m hm b hb
  set w := messages.drop (messages.length - window) with hw
  set useIds := collectToolUseIds w with huse
  set resIds := collectToolResultIds w with hres
  rw [prunedWindow] at hm
  obtain ⟨m0, hm0, hf⟩ := List.mem_filterMap.mp hm
  by_cases hp : m0.content.filter (fun c => keepBlock useIds resIds c) = []
  · rw [if_pos hp] at hf
    exact absurd hf (by simp)
  · rw [if_neg hp] at hf
    have hmc : m.content = m0.content.filter (fun c => keepBlock useIds resIds c) := by
      rw [← Option.some.inj hf]
    rw [hmc] at hb
    obtain ⟨hb0, hk⟩ := List.mem_filter.mp hb
    constructor
    · intro htu
      have hid : b.id ∈ resIds := by
        have := hk
        rw [keepBlock, if_pos htu] at this
        exact of_decide_eq_true this
      obtain ⟨m1, hm1, b1, hb1, hty1, hrf1⟩ :=
        mem_collectToolResultIds.mp hid
      have hk1 : keepBlock useIds resIds b1 = true := by
        rw [keepBlock, if_neg (by rw [hty1]; decide), if_pos hty1]
        apply decide_eq_true
        rw [hrf1]
        exact mem_collectToolUseIds.mpr ⟨m0, hm0, b, hb0, htu, rfl⟩
      obtain ⟨m', hm', hb'⟩ := mem_prunedWindow_of_block hm1 hb1 hk1
      exact ⟨m', hm', b1, hb', hty1, hrf1⟩
    · intro htr
      have hid : b.toolUseID ∈ useIds := by
        have := hk
        rw [keepBlock, if_neg (by rw [htr]; decide), if_pos htr] at this
        exact of_decide_eq_true this
      obtain ⟨m1, hm1, b1, hb1, hty1, hrf1⟩ :=
        mem_collectToolUseIds.mp hid
      have hk1 : keepBlock useIds resIds b1 = true := by
        rw [keepBlock, if_pos hty1]
        apply decide_eq_true
        rw [hrf1]
        exact mem_collectToolResultIds.mpr ⟨m0, hm0, b, hb0, htr, rfl⟩
      obtain ⟨m', hm', hb'⟩ := mem_prunedWindow_of_block hm1 hb1 hk1
      exact ⟨m', hm', b1, hb', hty1, hrf1⟩

theorem claim_C3_witness :
    2 < exPairedTranscript.length ∧
      (∀ m ∈ pruneMessages 2 exPairedTranscript, ∀ b ∈ m.content,
        (b.type = "tool_use" →
          ∃ m' ∈ pruneMessages 2 exPairedTranscript, ∃ b' ∈ m'.content,
            b'.type = "tool_result" ∧ b'.toolUseID = b.id) ∧
        (b.type = "tool_result" →
          ∃ m' ∈ pruneMessages 2 exPairedTranscript, ∃ b' ∈ m'.content,
            b'.type = "tool_use" ∧ b'.id = b.toolUseID)) :=
  ⟨by decide, claim_C3 2 exPairedTranscript (by decide)⟩

theorem attempt_delays_head (s : List ProviderReply) :
    ∀ b r, (attemptCreateMessage s b r).1 = [] ∨
      (attemptCreateMessage s b r).1.head? = some b := by
  induction s with
  | nil => intro b r; left; rfl
  | cons x rest ih =>
    intro b r
    cases x with
    | ok m => left; rfl
    | fail e =>
      by_cases hov : goContains e overloadedSubstr = true
      · by_cases hr : maxRetries ≤ r
        · left; simp [attemptCreateMessage, hov, hr]
        · right; simp [attemptCreateMessage, hov, hr]
      · left; simp [attemptCreateMessage, hov]

theorem attempt_delays_chain (s : List ProviderReply) :
    ∀ b r, List.Chain' (fun x y => y = min (x * 2) maxBackoff)
      (attemptCreateMessage s b r).1 := by
  induction s with
  | nil => intro b r; simp [attemptCreateMessage]
  | cons x rest ih =>
    intro b r
    cases x with
    | ok m => simp [attemptCreateMessage]
    | fail e =>
      by_cases hov : goContains e overloadedSubstr = true
      · by_cases hr : maxRetries ≤ r
        · simp [attemptCreateMessage, hov, hr]
        · simp only [attemptCreateMessage, hov, if_true, hr, if_false]
          rw [List.chain'_cons']
          refine ⟨?_, ih _ _⟩
          intro y hy
          rcases attempt_delays_head rest (min (b * 2) maxBackoff) (r + 1)
            with h | h
          · rw [h] at hy; simp at hy
          · rw [h] at hy
            simp only [Option.mem_def, Option.some.injEq] at hy
            omega
      · simp [attemptCreateMessage, hov]

theorem attempt_delays_le_max (s : List ProviderReply) :
    ∀ b r, b ≤ maxBackoff →
      ∀ d ∈ (attemptCreateMessage s b r).1, d ≤ maxBackoff := by
  induction s with
  | nil => intro b r _ d hd; simp [attemptCreateMessage] at hd
  | cons x rest ih =>
    intro b r hb d hd
    cases x with
    | ok m => simp [attemptCreateMessage] at hd
    | fail e =>
      by_cases hov : goContains e overloadedSubstr = true
      · by_cases hr : maxRetries ≤ r
        · simp [attemptCreateMessage, hov, hr] at hd
        · simp only [attemptCreateMessage, hov, if_true, hr, if_false,
            List.mem_cons] at hd
          rcases hd with rfl | hd
          · exact hb
          · exact ih (min (b * 2) maxBackoff) (r + 1)
              (Nat.min_le_right _ _) d hd
      · simp [attemptCreateMessage, hov] at hd

theorem attempt_delays_mono (s : List ProviderReply) :
    ∀ b r, b ≤ maxBackoff →
      List.Chain' (fun x y => x ≤ y) (attemptCreateMessage s b r).1 := by
  induction s with
  | nil => intro b r _; simp [attemptCreateMessage]
  | cons x rest ih =>
    intro b r hb
    cases x with
    | ok m => simp [attemptCreateMessage]
    | fail e =>
      by_cases hov : goContains e overloadedSubstr = true
      · by_cases hr : maxRetries ≤ r
        · simp [attemptCreateMessage, hov, hr]
        · simp only [attemptCreateMessage, hov, if_true, hr, if_false]
          rw [List.chain'_cons']
          refine ⟨?_, ih _ _ (Nat.min_le_right _ _)⟩
          intro y hy
          rcases attempt_delays_head rest (min (b * 2) maxBackoff) (r + 1)
            with h | h
          · rw [h] at hy; simp at hy
          · rw [h] at hy
            simp only [Option.mem_def, Option.some.injEq] at hy
            omega
      · simp [attemptCreateMessage, hov]

theorem attempt_terminal (k : Nat) :
    ∀ (s : List ProviderReply) (b r : Nat), r + k = maxRetries →
      k + 1 ≤ s.length → (s.take (k + 1)).all isTransient = true →
      (attemptCreateMessage s b r).2.2 = Except.error overloadTerminalMsg := by
  induction k with
  | zero =>
    intro s b r hr hlen hall
    cases s with
    | nil => simp at hlen
    | cons x rest =>
      simp only [List.take_succ_cons, List.take_zero, List.all_cons,
        List.all_nil, Bool.and_true] at hall
      cases x with
      | ok m => simp [isTransient] at hall
      | fail e =>
        have hov : goContains e overloadedSubstr = true := hall
        simp [attemptCreateMessage, hov, show maxRetries ≤ r by omega]
  | succ k ih =>
    intro s b r hr hlen hall
    cases s with
    | nil => simp at hlen
    | cons x rest =>
      simp only [List.take_succ_cons, List.all_cons, Bool.and_eq_true] at hall
      cases x with
      | ok m => simp [isTransient] at hall
      | fail e =>
        have hov : goContains e overloadedSubstr = true := hall.1
        have hrlt : ¬ maxRetries ≤ r := by omega
        simp only [attemptCreateMessage, hov, if_true, hrlt, if_false]
        exact ih rest (min (b * 2) maxBackoff) (r + 1) (by omega)
          (by simpa using hlen) hall.2

/-- C4: the transient-failure delays recorded by the retry loop start at
`initialBackoff`, each successive delay is the double of the previous one
capped at `maxBackoff`, hence they are non-decreasing and never exceed
`maxBackoff`; and once `maxRetries` attempts are spent a further transient
failure yields the terminal overloaded error rather than another retry. -/
theorem claim_C4 (script : List ProviderReply) :
    ((attemptCreateMessage script initialBackoff 0).1 = [] ∨
      (attemptCreateMessage script initialBackoff 0).1.head? =
        some initialBackoff) ∧
    List.Chain' (fun x y => y = min (x * 2) maxBackoff)
      (attemptCreateMessage script initialBackoff 0).1 ∧
    List.Chain' (fun x y => x ≤ y)
      (attemptCreateMessage script initialBackoff 0).1 ∧
    (∀ d ∈ (attemptCreateMessage script initialBackoff 0).1,
      d ≤ maxBackoff) ∧
    (maxRetries + 1 ≤ script.length →
      (script.take (maxRetries + 1)).all isTransient = true →
      (attemptCreateMessage script initialBackoff 0).2.2 =
        Except.error overloadTerminalMsg) := by
  have hinit : initialBackoff ≤ maxBackoff := by decide
  exact ⟨attempt_delays_head script initialBackoff 0,
    attempt_delays_chain script initialBackoff 0,
    attempt_delays_mono script initialBackoff 0 hinit,
    attempt_delays_le_max script initialBackoff 0 hinit,
    fun hlen hall => attempt_terminal maxRetries script initialBackoff 0
      (by omega) hlen hall⟩

theorem claim_C4_witness :
    maxRetries + 1 ≤ exOverloadedScript.length ∧
      (exOverloadedScript.take (maxRetries + 1)).all isTransient = true ∧
      (attemptCreateMessage exOverloadedScript initialBackoff 0).2.2 =
        Except.error overloadTerminalMsg :=
  ⟨by decide, by decide,
    (claim_C4 exOverloadedScript).2.2.2.2 (by decide) (by decide)⟩

/-- C5: a provider error is retried exactly when it contains the
provider-reported overloaded marker; any other provider error is returned
immediately with no delay slept and terminates the turn with that very
error. -/
theorem claim_C5 (e : String) (rest : List ProviderReply) (b r : Nat) :
    (goContains e overloadedSubstr = false →
      attemptCreateMessage (ProviderReply.fail e :: rest) b r =
        ([], rest, Except.error e)) ∧
    (goContains e overloadedSubstr = true → r < maxRetries →
      attemptCreateMessage (ProviderReply.fail e :: rest) b r =
        (b :: (attemptCreateMessage rest (min (b * 2) maxBackoff) (r + 1)).1,
          (attemptCreateMessage rest (min (b * 2) maxBackoff) (r + 1)).2.1,
          (attemptCreateMessage rest (min (b * 2) maxBackoff) (r + 1)).2.2)) ∧
    (∀ (clients : List (String × MCPClient)) (prompt : String)
        (msgs : List HistoryMessage),
      goContains e overloadedSubstr = false →
      (runPrompt clients (ProviderReply.fail e :: rest) prompt msgs).result =
        Except.error e) := by
  refine ⟨fun h => ?_, fun h hr => ?_, fun clients prompt msgs h => ?_⟩
  · simp [attemptCreateMessage, h]
  · simp [attemptCreateMessage, h, Nat.not_le.mpr hr]
  · simp [runPrompt, runPromptFuel, attemptCreateMessage, h]

theorem claim_C5_witness :
    goContains exFatalError overloadedSubstr = false ∧
      attemptCreateMessage [ProviderReply.fail exFatalError]
        initialBackoff 0 = ([], [], Except.error exFatalError) ∧
      (runPrompt [] [ProviderReply.fail exFatalError] "x" []).result =
        Except.error exFatalError :=
  ⟨by decide,
    (claim_C5 exFatalError [] initialBackoff 0).1 (by decide),
    (claim_C5 exFatalError [] initialBackoff 0).2.2 [] "x" [] (by decide)⟩

theorem dispatchOne_skip (clients : List (String × MCPClient)) (tc : ToolCall)
    (h : (goSplitDunder tc.name).length ≠ 2 ∨
      (∃ a b, goSplitDunder tc.name = [a, b] ∧
        clients.lookup a = Option.none) ∨
      parseArgs tc.args = Option.none) :
    ∃ msg, dispatchOne clients tc = ([msg], [], Option.none) := by
  cases hsp : goSplitDunder tc.name with
  | nil =>
    exact ⟨"Error: Invalid tool name format: " ++ tc.name,
      by simp [dispatchOne, hsp]⟩
  | cons a l1 =>
    cases l1 with
    | nil =>
      exact ⟨"Error: Invalid tool name format: " ++ tc.name,
        by simp [dispatchOne, hsp]⟩
    | cons b l2 =>
      cases l2 with
      | cons c l3 =>
        exact ⟨"Error: Invalid tool name format: " ++ tc.name,
          by simp [dispatchOne, hsp]⟩
      | nil =>
        cases hlook : clients.lookup a with
        | none =>
          exact ⟨"Error: Server not found: " ++ a,
            by simp [dispatchOne, hsp, hlook]⟩
        | some client =>
          have hpa : parseArgs tc.args = Option.none := by
            rcases h with hlen | ⟨a', b', heq, hlk⟩ | hpa
            · rw [hsp] at hlen; simp at hlen
            · rw [hsp] at heq
              simp only [List.cons.injEq, and_true] at heq
              obtain ⟨rfl, rfl, -⟩ := heq
              rw [hlook] at hlk
              exact absurd hlk (by simp)
            · exact hpa
          exact ⟨"Error parsing tool arguments",
            by simp [dispatchOne, hsp, hlook, hpa]⟩

/-- C6: an invocation whose fully-qualified name does not split into
exactly two parts, or whose server is not registered, or whose argument
payload fails to parse, is reported (one error line) and skipped: it
contributes no result segment and no tool call, while its `tool_use` block
is still recorded and all remaining invocations are dispatched exactly as
they would be without it. -/
theorem claim_C6 (clients : List (String × MCPClient)) (tc : ToolCall)
    (rest : List ToolCall)
    (h : (goSplitDunder tc.name).length ≠ 2 ∨
      (∃ a b, goSplitDunder tc.name = [a, b] ∧
        clients.lookup a = Option.none) ∨
      parseArgs tc.args = Option.none) :
    (dispatchCalls clients (tc :: rest)).toolResults =
      (dispatchCalls clients rest).toolResults ∧
    (dispatchCalls clients (tc :: rest)).called =
      (dispatchCalls clients rest).called ∧
    (dispatchCalls clients (tc :: rest)).toolUseBlocks =
      mkToolUseBlock tc :: (dispatchCalls clients rest).toolUseBlocks ∧
    ∃ msg, (dispatchCalls clients (tc :: rest)).display =
      msg :: (dispatchCalls clients rest).display := by
  obtain ⟨msg, hmsg⟩ := dispatchOne_skip clients tc h
  refine ⟨?_, ?_, ?_, msg, ?_⟩ <;> simp [dispatchCalls, hmsg]

theorem claim_C6_witness :
    (goSplitDunder exBadCall.name).length ≠ 2 ∧
      (dispatchCalls exClients [exBadCall, exGoodCall]).toolResults =
        (dispatchCalls exClients [exGoodCall]).toolResults ∧
      (dispatchCalls exClients [exBadCall, exGoodCall]).called =
        (dispatchCalls exClients [exGoodCall]).called :=
  ⟨by decide,
    (claim_C6 exClients exBadCall [exGoodCall] (Or.inl (by decide))).1,
    (claim_C6 exClients exBadCall [exGoodCall] (Or.inl (by decide))).2.1⟩

/-- C10: when the first reply to the non-interactive entry point has
non-empty text, it is returned with no error; the transcript is left
completely unchanged, nothing is displayed, no tool is called, and no
further reply is consumed — even when the reply also requests
invocations. -/
theorem claim_C10 (clients : List (String × MCPClient)) (m : LLMMessage)
    (rest : List ProviderReply) (prompt : String)
    (msgs : List HistoryMessage) (h : m.content ≠ "") :
    runPromptNonInteractive clients (ProviderReply.ok m :: rest) prompt msgs
      = ⟨[], msgs, rest, [], Except.ok m.content⟩ := by
  simp [runPromptNonInteractive, h]

theorem claim_C10_witness :
    exC10Msg.content ≠ "" ∧ exC10Msg.toolCalls ≠ [] ∧
      runPromptNonInteractive [] [ProviderReply.ok exC10Msg] "ask"
        [exTextTurn] = ⟨[], [exTextTurn], [], [], Except.ok "Direct answer"⟩ :=
  ⟨by decide, by decide,
    claim_C10 [] exC10Msg [] "ask" [exTextTurn] (by decide)⟩

/-- C7: the scenario run end to end — the provider returns reply text plus
one invocation whose tool call fails with a network error; the orchestrator
appends the user turn, the assistant turn, and exactly one `tool` turn
whose single synthetic result segment nests the error text, then recurses
once with an empty prompt and stops at the reply with no invocations,
leaving the third scripted reply unconsumed; and in general every failing
dispatched tool call yields exactly one synthetic result segment carrying
the error text, in invocation order, without aborting the turn. -/
theorem claim_C7 :
    runPrompt exC7Clients exC7Script "hi" [] =
      ⟨["You: hi", "Assistant: Let me fetch that",
        "Error calling tool fetch: network error", "Assistant: All done"],
       [userTurn "hi",
        ⟨"assistant", [{ type := "text", text := "Let me fetch that" },
                       mkToolUseBlock exC7Call]⟩,
        ⟨"tool", [errorResultBlock "tc1"
                    "Error calling tool fetch: network error"]⟩,
        ⟨"assistant", [{ type := "text", text := "All done" }]⟩],
       [ProviderReply.ok ⟨"unused", [], "assistant", 0, 0⟩],
       [("srv", "fetch")],
       Except.ok ()⟩ ∧
    (∀ (clients : List (String × MCPClient)) (tc : ToolCall)
        (rest : List ToolCall) (a b : String) (client : MCPClient)
        (args : List (String × String)) (e : String),
      goSplitDunder tc.name = [a, b] →
      clients.lookup a = some client →
      parseArgs tc.args = some args →
      client b args = Except.error e →
      (dispatchCalls clients (tc :: rest)).toolResults =
        errorResultBlock tc.id ("Error calling tool " ++ b ++ ": " ++ e) ::
          (dispatchCalls clients rest).toolResults) := by
  refine ⟨by rfl, ?_⟩
  intro clients tc rest a b client args e hsp hlk hpa hcall
  simp [dispatchCalls, dispatchOne, hsp, hlk, hpa, hcall]

theorem claim_C7_witness :
    goSplitDunder exC7Call.name = ["srv", "fetch"] ∧
      (dispatchCalls exC7Clients [exC7Call]).toolResults =
        errorResultBlock exC7Call.id
            ("Error calling tool " ++ "fetch" ++ ": " ++ "network error") ::
          (dispatchCalls exC7Clients ([] : List ToolCall)).toolResults :=
  ⟨by rfl,
    claim_C7.2 exC7Clients exC7Call [] "srv" "fetch" exFailClient []
      "network error" (by rfl) (by rfl) (by rfl) (by rfl)⟩

/-- C8 counterexample: a successful call whose raw content holds the two
text items `"a"` and `"b"` yields the flattened summary `"a b"`, not the
trimmed plain concatenation `"ab"` the claim derives; moreover a
successful call whose raw content is nil produces no result segment at
all. -/
theorem claim_C8_counterexample :
    (dispatchCalls exC8Clients [exC8CallA]).toolResults =
      [successResultBlock "u1" [MCPContent.text "a", MCPContent.text "b"]] ∧
    (successResultBlock "u1"
      [MCPContent.text "a", MCPContent.text "b"]).text = "a b" ∧
    goTrimSpace ("a" ++ "b") = "ab" ∧ ("a b" : String) ≠ "ab" ∧
    (dispatchCalls exC8Clients [exC8CallB]).called = [("s2", "t")] ∧
    (dispatchCalls exC8Clients [exC8CallB]).toolResults = [] := by
  refine ⟨by rfl, by rfl, by rfl, by decide, by rfl, by rfl⟩

theorem string_foldl_append (l : List String) :
    ∀ acc : String, l.foldl (fun r s => r ++ s) acc =
      acc ++ l.foldl (fun r s => r ++ s) "" := by
  induction l with
  | nil => intro acc; simp [List.foldl, String.append_empty]
  | cons x xs ih =>
    intro acc
    simp only [List.foldl]
    rw [ih (acc ++ x), ih ("" ++ x), String.empty_append,
      String.append_assoc]

theorem string_join_cons (x : String) (l : List String) :
    String.join (x :: l) = x ++ String.join l := by
  simp only [String.join, List.foldl]
  rw [string_foldl_append l ("" ++ x), String.empty_append]

theorem flattenText_eq_spec (items : List MCPContent) :
    flattenText items = specFlattenSpaced items := by
  suffices h : ∀ acc : String,
      items.foldl (fun acc i =>
        match i with
        | MCPContent.text s => acc ++ s ++ " "
        | MCPContent.other _ => acc) acc =
      acc ++ String.join (items.filterMap fun i =>
        match i with
        | MCPContent.text s => some (s ++ " ")
        | MCPContent.other _ => Option.none) by
    rw [flattenText, specFlattenSpaced, h "", String.empty_append]
  induction items with
  | nil =>
    intro acc
    simp [String.join, String.append_empty]
  | cons x xs ih =>
    intro acc
    cases x with
    | text s =>
      simp only [List.foldl, List.filterMap_cons]
      rw [ih (acc ++ s ++ " "), string_join_cons,
        String.append_assoc acc s " ",
        String.append_assoc acc (s ++ " ")]
    | other k =>
      simp only [List.foldl, List.filterMap_cons]
      exact ih acc

theorem runPromptFuel_extends (clients : List (String × MCPClient)) :
    ∀ (fuel : Nat) (script : List ProviderReply) (prompt : String)
      (msgs : List HistoryMessage),
      msgs <+: (runPromptFuel clients fuel script prompt msgs).messages := by
  intro fuel
  induction fuel with
  | zero =>
    intro script prompt msgs
    simp [runPromptFuel]
  | succ fuel ih =>
    intro script prompt msgs
    rcases hA : attemptCreateMessage script initialBackoff 0 with ⟨ds, rem, res⟩
    cases res with
    | error e =>
      by_cases hp : prompt = "" <;>
        simp [runPromptFuel, hA, hp, List.prefix_append]
    | ok m =>
      by_cases hd : (dispatchCalls clients m.toolCalls).toolResults = []
      · by_cases hp : prompt = "" <;>
          simp [runPromptFuel, hA, hp, hd, List.append_assoc,
            List.prefix_append]
      · by_cases hp : prompt = "" <;>
        · simp only [runPromptFuel, hA, hd, hp, if_false, if_true, ne_eq,
            not_false_eq_true, not_true_eq_false, ite_false, ite_true]
          refine List.IsPrefix.trans ?_ (ih _ _ _)
          simp [List.append_assoc, List.prefix_append, hp]

/-- C8 amended: on a successful tool call with non-nil raw content, the
dispatch loop produces exactly one `tool_result` segment wrapping that raw
content, placed before the results of the remaining invocations; its
flattened text summary is every plain-text item followed by a single
space, concatenated and then trimmed (not the plain concatenation); and
the orchestrator appends one `tool` turn per produced result segment, each
holding that single segment, in invocation order, directly after the
assistant turn. -/
theorem claim_C8 (clients : List (String × MCPClient)) (tc : ToolCall)
    (rest : List ToolCall) (a b : String) (client : MCPClient)
    (args : List (String × String)) (items : List MCPContent)
    (hsp : goSplitDunder tc.name = [a, b])
    (hlk : clients.lookup a = some client)
    (hpa : parseArgs tc.args = some args)
    (hcall : client b args = Except.ok ⟨some items⟩) :
    (dispatchCalls clients (tc :: rest)).toolResults =
      successResultBlock tc.id items ::
        (dispatchCalls clients rest).toolResults ∧
    (successResultBlock tc.id items).text = specFlattenSpaced items ∧
    (∀ (script : List ProviderReply) (prompt : String)
        (msgs : List HistoryMessage) (ds : List Nat)
        (rem : List ProviderReply) (m : LLMMessage),
      attemptCreateMessage script initialBackoff 0 =
        (ds, rem, Except.ok m) →
      ((if prompt ≠ "" then msgs ++ [userTurn prompt] else msgs) ++
        [⟨m.role,
          (if m.content ≠ ""
            then [{ type := "text", text := m.content }]
            else ([] : List ContentBlock)) ++
          (dispatchCalls clients m.toolCalls).toolUseBlocks⟩] ++
        ((dispatchCalls clients m.toolCalls).toolResults.map
          fun r => (⟨"tool", [r]⟩ : HistoryMessage)))
        <+: (runPrompt clients script prompt msgs).messages) := by
  refine ⟨?_, flattenText_eq_spec items, ?_⟩
  · simp [dispatchCalls, dispatchOne, hsp, hlk, hpa, hcall]
  · intro script prompt msgs ds rem m hA
    rw [runPrompt]
    by_cases hd : (dispatchCalls clients m.toolCalls).toolResults = []
    · simp [runPromptFuel, hA, hd]
    · simp only [runPromptFuel, hA, hd, if_false, ite_false]
      exact List.IsPrefix.trans (by simp) (runPromptFuel_extends clients _ _ _ _)

theorem claim_C8_witness :
    goSplitDunder exC8CallA.name = ["s1", "t"] ∧
      (dispatchCalls exC8Clients [exC8CallA]).toolResults =
        successResultBlock exC8CallA.id
            [MCPContent.text "a", MCPContent.text "b"] ::
          (dispatchCalls exC8Clients ([] : List ToolCall)).toolResults ∧
      (successResultBlock exC8CallA.id
        [MCPContent.text "a", MCPContent.text "b"]).text =
        specFlattenSpaced [MCPContent.text "a", MCPContent.text "b"] := by
  have h := claim_C8 exC8Clients exC8CallA [] "s1" "t" exTwoTextClient []
    [MCPContent.text "a", MCPContent.text "b"]
    (by rfl) (by rfl) (by rfl) (by rfl)
  exact ⟨by rfl, h.1, h.2.1⟩

theorem nonInt_appended_cases {msgs : List HistoryMessage} {m : LLMMessage}
    {tub trs : List ContentBlock} {turn : HistoryMessage}
    (ht : turn ∈ msgs ++ [(⟨m.role, tub⟩ : HistoryMessage)] ++
      trs.map (fun r => (⟨"tool", [r]⟩ : HistoryMessage)))
    (hrole : m.role ≠ "user") : turn ∈ msgs ∨ turn.role ≠ "user" := by
  simp only [List.mem_append, List.mem_map, List.mem_singleton] at ht
  rcases ht with (h | rfl) | ⟨r, -, rfl⟩
  · exact Or.inl h
  · exact Or.inr hrole
  · exact Or.inr (show ("tool" : String) ≠ "user" by decide)

/-- C1 counterexample: with the non-empty prompt `"hi"` and a provider
reply carrying plain text, the interactive entry point appends a user turn
while the non-interactive one appends nothing at all — so a non-empty
human prompt does not lead to a user turn in both variants. -/
theorem claim_C1_counterexample :
    ("hi" : String) ≠ "" ∧
      (runPromptNonInteractive [] [ProviderReply.ok exC1Msg] "hi"
        []).messages = [] ∧
      (runPrompt [] [ProviderReply.ok exC1Msg] "hi" []).messages =
        [userTurn "hi",
         ⟨"assistant", [{ type := "text", text := "hello there" }]⟩] :=
  ⟨by decide, by rfl, by rfl⟩

theorem dispatchOne_display_error (clients : List (String × MCPClient))
    (tc : ToolCall) :
    ∀ line ∈ (dispatchOne clients tc).1, ∃ t, line = "Error" ++ t := by
  have hlitName : "Error: Invalid tool name format: " =
      "Error" ++ ": Invalid tool name format: " := by decide
  have hlitSrv : "Error: Server not found: " =
      "Error" ++ ": Server not found: " := by decide
  have hlitCall : "Error calling tool " = "Error" ++ " calling tool " := by
    decide
  intro line hline
  cases hsp : goSplitDunder tc.name with
  | nil =>
    simp only [dispatchOne, hsp, List.mem_singleton] at hline
    exact ⟨": Invalid tool name format: " ++ tc.name,
      by rw [hline, hlitName, String.append_assoc]⟩
  | cons a l1 =>
    cases l1 with
    | nil =>
      simp only [dispatchOne, hsp, List.mem_singleton] at hline
      exact ⟨": Invalid tool name format: " ++ tc.name,
        by rw [hline, hlitName, String.append_assoc]⟩
    | cons b l2 =>
      cases l2 with
      | cons c l3 =>
        simp only [dispatchOne, hsp, List.mem_singleton] at hline
        exact ⟨": Invalid tool name format: " ++ tc.name,
          by rw [hline, hlitName, String.append_assoc]⟩
      | nil =>
        cases hlk : clients.lookup a with
        | none =>
          simp only [dispatchOne, hsp, hlk, List.mem_singleton] at hline
          exact ⟨": Server not found: " ++ a,
            by rw [hline, hlitSrv, String.append_assoc]⟩
        | some client =>
          cases hpa : parseArgs tc.args with
          | none =>
            simp only [dispatchOne, hsp, hlk, hpa,
              List.mem_singleton] at hline
            exact ⟨" parsing tool arguments", by rw [hline]; decide⟩
          | some args =>
            cases hcall : client b args with
            | error e =>
              simp only [dispatchOne, hsp, hlk, hpa, hcall,
                List.mem_singleton] at hline
              refine ⟨" calling tool " ++ b ++ ": " ++ e, ?_⟩
              rw [hline, hlitCall]
              simp only [String.append_assoc]
            | ok res =>
              cases hct : res.content <;>
                simp [dispatchOne, hsp, hlk, hpa, hcall, hct] at hline

theorem dispatchCalls_display_error (clients : List (String × MCPClient)) :
    ∀ (calls : List ToolCall),
      ∀ line ∈ (dispatchCalls clients calls).display,
        ∃ t, line = "Error" ++ t := by
  intro calls
  induction calls with
  | nil => intro line h; simp [dispatchCalls] at h
  | cons tc rest ih =>
    intro line h
    simp only [dispatchCalls, List.mem_append] at h
    rcases h with h1 | h2
    · exact dispatchOne_display_error clients tc line h1
    · exact ih line h2

theorem nonInt_display_error (clients : List (String × MCPClient)) :
    ∀ (script : List ProviderReply) (prompt : String)
      (msgs : List HistoryMessage),
      ∀ line ∈ (runPromptNonInteractive clients script prompt msgs).display,
        ∃ t, line = "Error" ++ t := by
  intro script
  induction script with
  | nil => intro prompt msgs line h; simp [runPromptNonInteractive] at h
  | cons x rest ih =>
    intro prompt msgs line h
    cases x with
    | fail e => simp [runPromptNonInteractive] at h
    | ok m =>
      by_cases hc : m.content = ""
      · by_cases hd : (dispatchCalls clients m.toolCalls).toolResults = []
        · simp only [runPromptNonInteractive, hc, ne_eq,
            not_true_eq_false, ite_false, hd, ite_true] at h
          exact dispatchCalls_display_error clients m.toolCalls line h
        · simp only [runPromptNonInteractive, hc, ne_eq,
            not_true_eq_false, ite_false, hd, ite_true] at h
          rcases List.mem_append.mp h with h1 | h2
          · exact dispatchCalls_display_error clients m.toolCalls line h1
          · exact ih "" _ line h2
      · simp [runPromptNonInteractive, hc] at h

theorem nonInt_result_first (clients : List (String × MCPClient)) :
    ∀ (script : List ProviderReply) (prompt : String)
      (msgs : List HistoryMessage) (s : String),
      (runPromptNonInteractive clients script prompt msgs).result =
        Except.ok s → s ≠ "" →
      ∃ pre m rest, script = pre ++ ProviderReply.ok m :: rest ∧
        m.content = s ∧
        (∀ m' : LLMMessage, ProviderReply.ok m' ∈ pre → m'.content = "") ∧
        (runPromptNonInteractive clients script prompt msgs).remaining =
          rest := by
  intro script
  induction script with
  | nil =>
    intro prompt msgs s hres hs
    simp [runPromptNonInteractive] at hres
  | cons x rest ih =>
    intro prompt msgs s hres hs
    cases x with
    | fail e => simp [runPromptNonInteractive] at hres
    | ok m =>
      by_cases hc : m.content = ""
      · by_cases hd : (dispatchCalls clients m.toolCalls).toolResults = []
        · simp only [runPromptNonInteractive, hc, ne_eq,
            not_true_eq_false, ite_false, hd, ite_true] at hres
          exact absurd (Except.ok.inj hres).symm hs
        · simp only [runPromptNonInteractive, hc, ne_eq,
            not_true_eq_false, ite_false, hd, ite_true] at hres ⊢
          obtain ⟨pre, m1, rest1, hdec, hcont, hpre, hrem⟩ :=
            ih "" _ s hres hs
          refine ⟨ProviderReply.ok m :: pre, m1, rest1, ?_, hcont, ?_, hrem⟩
          · rw [List.cons_append, hdec]
          · intro m' hm'
            rcases List.mem_cons.mp hm' with heq | hm2
            · injection heq with h2
              rw [h2, hc]
            · exact hpre m' hm2
      · simp only [runPromptNonInteractive, hc, ne_eq, not_false_eq_true,
          ite_true] at hres ⊢
        refine ⟨[], m, rest, by simp, Except.ok.inj hres, ?_, rfl⟩
        intro m' hm'
        exact absurd hm' (List.not_mem_nil _)

/-- C1 amended: the non-interactive entry point returns the first
non-empty text reply of the turn — any non-empty text it returns is the
content of the first consumed provider reply with non-empty text, and no
further reply is consumed — and its display side effects are limited to
tool-dispatch error reports (every line it displays begins with "Error");
it never appends a user turn for the human prompt.  Only the interactive
entry point does: for every non-empty prompt it appends the user turn in
place (prefix of the resulting transcript), while every turn the
non-interactive variant appends is an assistant or tool turn (never a user
turn, provided the provider replies do not themselves claim the user
role). -/
theorem claim_C1 :
    (∀ (clients : List (String × MCPClient)) (script : List ProviderReply)
        (prompt : String) (msgs : List HistoryMessage), prompt ≠ "" →
      (msgs ++ [userTurn prompt]) <+:
        (runPrompt clients script prompt msgs).messages) ∧
    (∀ (clients : List (String × MCPClient)) (script : List ProviderReply)
        (prompt : String) (msgs : List HistoryMessage),
      (∀ m : LLMMessage, ProviderReply.ok m ∈ script → m.role ≠ "user") →
      ∀ turn ∈ (runPromptNonInteractive clients script prompt msgs).messages,
        turn ∈ msgs ∨ turn.role ≠ "user") ∧
    (∀ (clients : List (String × MCPClient)) (script : List ProviderReply)
        (prompt : String) (msgs : List HistoryMessage),
      ∀ line ∈ (runPromptNonInteractive clients script prompt msgs).display,
        ∃ t, line = "Error" ++ t) ∧
    (∀ (clients : List (String × MCPClient)) (script : List ProviderReply)
        (prompt : String) (msgs : List HistoryMessage) (s : String),
      (runPromptNonInteractive clients script prompt msgs).result =
        Except.ok s → s ≠ "" →
      ∃ pre m rest, script = pre ++ ProviderReply.ok m :: rest ∧
        m.content = s ∧
        (∀ m' : LLMMessage, ProviderReply.ok m' ∈ pre → m'.content = "") ∧
        (runPromptNonInteractive clients script prompt msgs).remaining =
          rest) := by
  refine ⟨?_, ?_, fun clients => nonInt_display_error clients,
    fun clients => nonInt_result_first clients⟩
  · intro clients script prompt msgs hp
    rw [runPrompt]
    rcases hA : attemptCreateMessage script initialBackoff 0
      with ⟨ds, rem, res⟩
    cases res with
    | error e => simp [runPromptFuel, hA, hp]
    | ok m =>
      by_cases hd : (dispatchCalls clients m.toolCalls).toolResults = []
      · simp [runPromptFuel, hA, hp, hd, List.append_assoc,
          List.prefix_append]
      · simp only [runPromptFuel, hA, hd, hp, ne_eq, not_false_eq_true,
          ite_true, if_false, ite_false]
        refine List.IsPrefix.trans ?_ (runPromptFuel_extends clients _ _ _ _)
        simp [List.append_assoc, List.prefix_append]
  · intro clients script
    induction script with
    | nil =>
      intro prompt msgs _ turn ht
      simp only [runPromptNonInteractive] at ht
      exact Or.inl ht
    | cons x rest ih =>
      intro prompt msgs hroles turn ht
      have hrest : ∀ m : LLMMessage, ProviderReply.ok m ∈ rest →
          m.role ≠ "user" :=
        fun m hm => hroles m (List.mem_cons_of_mem _ hm)
      cases x with
      | fail e =>
        simp only [runPromptNonInteractive] at ht
        exact Or.inl ht
      | ok m =>
        have hrole : m.role ≠ "user" := hroles m (List.mem_cons_self _ _)
        by_cases hc : m.content = ""
        · by_cases hd : (dispatchCalls clients m.toolCalls).toolResults = []
          · simp only [runPromptNonInteractive, hc, ne_eq,
              not_true_eq_false, ite_false, hd, ite_true] at ht
            exact nonInt_appended_cases ht hrole
          · simp only [runPromptNonInteractive, hc, ne_eq,
              not_true_eq_false, ite_false, hd, ite_true] at ht
            rcases ih "" _ hrest turn ht with h2 | h2
            · exact nonInt_appended_cases h2 hrole
            · exact Or.inr h2
        · simp only [runPromptNonInteractive, hc, ne_eq,
            not_false_eq_true, ite_true] at ht
          exact Or.inl ht

theorem claim_C1_witness :
    (([] : List HistoryMessage) ++ [userTurn "hi"]) <+:
      (runPrompt [] [ProviderReply.ok exC1Msg] "hi" []).messages ∧
    (∀ turn ∈ (runPromptNonInteractive [] [ProviderReply.ok exC1Msg] "hi"
      []).messages, turn ∈ ([] : List HistoryMessage) ∨ turn.role ≠ "user") ∧
    (∀ line ∈ (runPromptNonInteractive [] [ProviderReply.ok exC1Msg] "hi"
      []).display, ∃ t, line = "Error" ++ t) ∧
    (∃ pre m rest,
      [ProviderReply.ok exC1Msg] = pre ++ ProviderReply.ok m :: rest ∧
      m.content = "hello there" ∧
      (∀ m' : LLMMessage, ProviderReply.ok m' ∈ pre → m'.content = "") ∧
      (runPromptNonInteractive [] [ProviderReply.ok exC1Msg] "hi"
        []).remaining = rest) :=
  ⟨claim_C1.1 [] [ProviderReply.ok exC1Msg] "hi" [] (by decide),
   claim_C1.2.1 [] [ProviderReply.ok exC1Msg] "hi" []
     (fun m hm => by
       have h := List.mem_singleton.mp hm
       injection h with h2
       rw [h2]
       decide),
   claim_C1.2.2.1 [] [ProviderReply.ok exC1Msg] "hi" [],
   claim_C1.2.2.2 [] [ProviderReply.ok exC1Msg] "hi" [] "hello there"
     (by rfl) (by decide)⟩

end MCPHost
